import Mathlib

/-!
Verification development for the `piimaskingregex` gateway policy.

The Go source is shallowly embedded here.  Strings are modelled as `List Char`
(`Str`) so that every operation is executable and structurally transparent.
A regular-expression detector is modelled by its matching behaviour: a
function that, given the content and a position, returns the length of the
match the engine would report at that position (leftmost-first semantics are
obtained by the scanning driver `findAllSpans`, which mirrors Go's
`FindAllString`: scan left to right, emit the match at the first position
where the pattern matches, continue after its end).

Go iterates `map` values in an incidental order; the embedding makes that
order explicit by passing the detector set as a list of (entity name,
detector) pairs, and the correlation map as an association list in insertion
order.
-/

set_option maxRecDepth 20000

abbrev Str := List Char

def str (s : String) : Str := s.toList

/-- A detector: for content `s` and position `i`, the length of the match the
regex engine reports starting at `i` (if any). -/
abbrev Detector := Str → Nat → Option Nat

/-- Character at index, `none` past the end. -/
def charAt? (s : Str) (i : Nat) : Option Char := s[i]?

/-- `(s.drop i).take len`: the substring of `s` at span `(i, len)`. -/
def sliceL (s : Str) (i len : Nat) : Str := (s.drop i).take len

/-- Association-list lookup with list-order priority (embedding of Go map
indexing; insertion order is the list order). -/
def lookupL (k : Str) : List (Str × Str) → Option Str
  | [] => none
  | (a, b) :: r => if a = k then some b else lookupL k r

/-- Embedding of Go `strings.Contains s pat`. -/
def containsSub (s pat : Str) : Bool :=
  match s with
  | [] => pat.isEmpty
  | _ :: r => pat.isPrefixOf s || containsSub r pat

/-- Embedding of Go `strings.ReplaceAll s pat rep`: leftmost, non-overlapping
replacement of every occurrence.  Structured with a fuel argument so that the
kernel can evaluate it; every recursive call shortens `s` by at least one
character, so with fuel `s.length` the fuel never runs out before `s` is
exhausted.  (For an empty pattern Go inserts `rep` before every rune and at
the end; the wrapper `goReplaceAll` covers that case, which the policy never
reaches since matched literals are non-empty.) -/
def replaceAllF (pat rep : Str) : Nat → Str → Str
  | 0, s => s
  | _ + 1, [] => []
  | fuel + 1, c :: rest =>
    if pat ≠ [] ∧ pat.isPrefixOf (c :: rest) then
      rep ++ replaceAllF pat rep fuel ((c :: rest).drop pat.length)
    else
      c :: replaceAllF pat rep fuel rest

def replaceAll (pat rep s : Str) : Str := replaceAllF pat rep s.length s

def goReplaceAll (pat rep s : Str) : Str :=
  if pat = [] then rep ++ s.flatMap (fun c => c :: rep) else replaceAll pat rep s

/-- Scanning driver shared by `FindAllString`, `ReplaceAllString` and
`MatchString`: the list of (position, length) spans of the non-overlapping,
leftmost matches of the detector. -/
def findAllAux (d : Detector) (s : Str) : Nat → Nat → List (Nat × Nat)
  | _, 0 => []
  | i, fuel + 1 =>
    if i ≤ s.length then
      match d s i with
      | some l => if l = 0 then (i, 0) :: findAllAux d s (i + 1) fuel
                  else (i, l) :: findAllAux d s (i + l) fuel
      | none => findAllAux d s (i + 1) fuel
    else []

def findAllSpans (d : Detector) (s : Str) : List (Nat × Nat) :=
  findAllAux d s 0 (s.length + 1)

/-- Embedding of `pattern.FindAllString(s, -1)`: the matched substrings. -/
def detMatches (d : Detector) (s : Str) : List Str :=
  (findAllSpans d s).map (fun p => sliceL s p.1 p.2)

/-- Embedding of `pattern.MatchString(s)`. -/
def matchStringB (d : Detector) (s : Str) : Bool :=
  !(findAllSpans d s).isEmpty

/-- Embedding of `pattern.ReplaceAllString(s, rep)` for a literal `rep`
(no `$` expansion): every match span replaced by `rep`. -/
def replaceSpans (s rep : Str) : Nat → List (Nat × Nat) → Str
  | i, [] => s.drop i
  | i, (p, l) :: rest => (s.drop i).take (p - i) ++ rep ++ replaceSpans s rep (p + l) rest

def replaceMatches (d : Detector) (s rep : Str) : Str :=
  replaceSpans s rep 0 (findAllSpans d s)

/-- Detector for an alternation of literal strings (`lit1|lit2|...`):
leftmost-first — at a position, the first alternative in pattern order that
matches is reported. -/
def litAltDetector (lits : List Str) : Detector := fun s i =>
  lits.findSome? (fun l =>
    if l ≠ [] ∧ l.isPrefixOf (s.drop i) then some l.length else none)

/- ### The built-in EMAIL detector

Embedding of `DefaultEmailRegex`:
`(?i)\b[a-z0-9.!#$%&'*+/=?^_{|}~-]+@(?:[a-z0-9](?:[a-z0-9-]{0,61}[a-z0-9])?\.)+[a-z0-9](?:[a-z0-9-]{0,61}[a-z0-9])\b`
with RE2 leftmost-first semantics.  Because `@` is not a local-part atom and
`.` is not a domain-label character, the greedy `+`/`{0,61}` runs are forced
to be the maximal character runs; the only residual backtracking is how many
`label.` groups are consumed and where the final TLD run stops before a `-`
to satisfy the trailing `\b`, which `domainRec`/`tldSearch` implement in the
engine's priority order (more groups first, longer TLD first). -/

def isWordChar (c : Char) : Bool :=
  ('0' ≤ c && c ≤ '9') || ('A' ≤ c && c ≤ 'Z') || ('a' ≤ c && c ≤ 'z') || c = '_'

def isWordOpt : Option Char → Bool
  | none => false
  | some c => isWordChar c

/-- `\b` between positions `i-1` and `i` (text edges count as non-word). -/
def boundaryAt (s : Str) (i : Nat) : Bool :=
  (if i = 0 then false else isWordOpt (charAt? s (i - 1))) != isWordOpt (charAt? s i)

def isAlnumCI (c : Char) : Bool :=
  ('0' ≤ c && c ≤ '9') || ('A' ≤ c && c ≤ 'Z') || ('a' ≤ c && c ≤ 'z')

/-- The local-part atom class `[a-z0-9.!#$%&'*+/=?^_{|}~-]` under `(?i)`. -/
def isEmailAtom (c : Char) : Bool :=
  isAlnumCI c || c = '.' || c = '!' || c = '#' || c = '$' || c = '%' || c = '&' ||
  c = Char.ofNat 39 || c = '*' || c = '+' || c = '/' || c = '=' || c = '?' ||
  c = '^' || c = '_' || c = Char.ofNat 123 || c = '|' || c = Char.ofNat 125 ||
  c = '~' || c = '-'

/-- The domain-label class `[a-z0-9-]` under `(?i)`. -/
def isDnsChar (c : Char) : Bool := isAlnumCI c || c = '-'

/-- Length of the maximal run of `p`-characters starting at `i`. -/
def runLength (p : Char → Bool) (s : Str) (i : Nat) : Nat :=
  ((s.drop i).takeWhile p).length

def alnumAt (s : Str) (i : Nat) : Bool :=
  match charAt? s i with
  | some c => isAlnumCI c
  | none => false

/-- Greedy search for the TLD `[a-z0-9](?:[a-z0-9-]{0,61}[a-z0-9])` followed
by `\b`, inside the maximal `[a-z0-9-]` run of length `r` at `k`: the longest
admissible length `t ≤ min r 63` first.  If the TLD stops inside the run, the
next run character must be `-` (the only non-word run character); if it
consumes the whole run, the character after the run must be non-word. -/
def tldSearch (s : Str) (k r : Nat) : Nat → Option Nat
  | 0 => none
  | 1 => none
  | t + 2 =>
    if alnumAt s k && alnumAt s (k + (t + 2) - 1) &&
        (if t + 2 < r then charAt? s (k + (t + 2)) = some '-'
         else !isWordOpt (charAt? s (k + r))) then
      some (k + (t + 2))
    else tldSearch s k r (t + 1)

/-- Domain matcher for `(?:LABEL\.)+TLD\b` starting at `k`; `hasGroup` records
whether at least one `LABEL.` group has been consumed.  Priority: consume
another `LABEL.` group if possible (greedy `+`), otherwise try the TLD here.
Returns the end position of the match. -/
def domainRec (s : Str) (k : Nat) (hasGroup : Bool) : Nat → Option Nat
  | 0 => none
  | fuel + 1 =>
    let r := runLength isDnsChar s k
    let viaLabel : Option Nat :=
      if 1 ≤ r ∧ r ≤ 63 ∧ alnumAt s k = true ∧ alnumAt s (k + r - 1) = true ∧
         charAt? s (k + r) = some '.' then
        domainRec s (k + r + 1) true fuel
      else none
    match viaLabel with
    | some e => some e
    | none => if hasGroup then tldSearch s k r (min r 63) else none

/-- Match of the email pattern at position `i`: `\b`, a maximal non-empty
atom run, `@`, then the domain. -/
def emailDetector : Detector := fun s i =>
  if boundaryAt s i then
    let r := runLength isEmailAtom s i
    if r = 0 then none
    else if charAt? s (i + r) = some '@' then
      match domainRec s (i + r + 1) false (s.length + 1) with
      | some e => some (e - i)
      | none => none
    else none
  else none

/- ### The built-in PHONE detector

Embedding of `DefaultPhoneRegex`:
`(?:\+?1[-.\s]?)?(?:\([2-9][0-9]{2}\)|[2-9][0-9]{2})[-.\s]?[2-9][0-9]{2}[-.\s]?[0-9]{4}\b`.
All quantifiers are bounded, so the match at a position is found by trying
the finitely many option combinations in the engine's backtracking priority
order (each `X?` tries `X` before the empty alternative, `\(...\)` before the
bare area code). -/

def isDigitCh (c : Char) : Bool := '0' ≤ c && c ≤ '9'

def isDigOpt : Option Char → Bool
  | none => false
  | some c => isDigitCh c

def isD29Opt : Option Char → Bool
  | none => false
  | some c => '2' ≤ c && c ≤ '9'

/-- Go `\s` inside a character class: `[\t\n\f\r ]`. -/
def isSepOpt : Option Char → Bool
  | none => false
  | some c => c = '-' || c = '.' || c = '\t' || c = '\n' || c = '\x0c' || c = '\r' || c = ' '

def sepOpts (s : Str) (k : Nat) : List Nat :=
  if isSepOpt (charAt? s k) then [1, 0] else [0]

def matchPhoneAt (s : Str) (i : Nat) : Option Nat :=
  let prefixLens : List Nat :=
    (if charAt? s i = some '+' ∧ charAt? s (i + 1) = some '1' then
      (if isSepOpt (charAt? s (i + 2)) then [3, 2] else [2])
     else []) ++
    (if charAt? s i = some '1' then
      (if isSepOpt (charAt? s (i + 1)) then [2, 1] else [1])
     else []) ++ [0]
  prefixLens.findSome? fun p =>
    let j := i + p
    let areaOpt : Option Nat :=
      if charAt? s j = some '(' ∧ isD29Opt (charAt? s (j + 1)) = true ∧
         isDigOpt (charAt? s (j + 2)) = true ∧ isDigOpt (charAt? s (j + 3)) = true ∧
         charAt? s (j + 4) = some ')' then some 5
      else if isD29Opt (charAt? s j) = true ∧ isDigOpt (charAt? s (j + 1)) = true ∧
              isDigOpt (charAt? s (j + 2)) = true then some 3
      else none
    areaOpt.bind fun a =>
      let k := j + a
      (sepOpts s k).findSome? fun s1 =>
        let m := k + s1
        if isD29Opt (charAt? s m) = true ∧ isDigOpt (charAt? s (m + 1)) = true ∧
           isDigOpt (charAt? s (m + 2)) = true then
          let m2 := m + 3
          (sepOpts s m2).findSome? fun s2 =>
            let t := m2 + s2
            if isDigOpt (charAt? s t) = true ∧ isDigOpt (charAt? s (t + 1)) = true ∧
               isDigOpt (charAt? s (t + 2)) = true ∧ isDigOpt (charAt? s (t + 3)) = true ∧
               isWordOpt (charAt? s (t + 4)) = false then
              some (t + 4 - i)
            else none
        else none

def phoneDetector : Detector := fun s i => matchPhoneAt s i

/- ### Hex formatting: embedding of `fmt.Sprintf("%04x", counter)` -/

def hexDigit : Nat → Char
  | 0 => '0' | 1 => '1' | 2 => '2' | 3 => '3' | 4 => '4' | 5 => '5'
  | 6 => '6' | 7 => '7' | 8 => '8' | 9 => '9' | 10 => 'a' | 11 => 'b'
  | 12 => 'c' | 13 => 'd' | 14 => 'e' | 15 => 'f' | _ => '0'

def hexVal (c : Char) : Nat :=
  if '0' ≤ c ∧ c ≤ '9' then c.toNat - 48
  else if 'a' ≤ c ∧ c ≤ 'f' then c.toNat - 87
  else 0

def isHexLower (c : Char) : Bool :=
  ('0' ≤ c && c ≤ '9') || ('a' ≤ c && c ≤ 'f')

/-- Hex digits of `n`, least significant first (fuel form: the value shrinks
by a factor of 16 each step, so fuel `n + 1` always suffices). -/
def toHexLEF : Nat → Nat → List Char
  | 0, _ => []
  | fuel + 1, n => if n < 16 then [hexDigit n] else hexDigit (n % 16) :: toHexLEF fuel (n / 16)

def toHexLE (n : Nat) : List Char := toHexLEF (n + 1) n

def toHexBE (n : Nat) : List Char := (toHexLE n).reverse

/-- `%04x`: hex, zero-padded on the left to at least four digits. -/
def hex4 (n : Nat) : List Char :=
  List.replicate (4 - (toHexBE n).length) '0' ++ toHexBE n

/-- Embedding of `fmt.Sprintf("[%s_%04x]", key, counter)`. -/
def mkPlaceholder (key : Str) (counter : Nat) : Str :=
  '[' :: (key ++ '_' :: (hex4 counter ++ [']']))

/- ### The placeholder shape `^\[[A-Z_]+_[0-9a-f]{4}\]$` -/

def isUpperUnd (c : Char) : Bool :=
  ('A' ≤ c && c ≤ 'Z') || c = '_'

/-- Embedding of `placeholderPattern.MatchString`: the anchored pattern
`^\[[A-Z_]+_[0-9a-f]{4}\]$`.  Since the hex block has exactly four digits and
`]` ends the string, the decomposition is forced from the right. -/
def placeholderShaped (s : Str) : Bool :=
  match s with
  | '[' :: rest =>
    let n := rest.length
    if n ≥ 7 then
      match rest.drop (n - 6) with
      | '_' :: h1 :: h2 :: h3 :: h4 :: ']' :: [] =>
        isHexLower h1 && isHexLower h2 && isHexLower h3 && isHexLower h4 &&
        !(rest.take (n - 6)).isEmpty && (rest.take (n - 6)).all isUpperUnd
      | _ => false
    else false
  | _ => false

/-- `true` iff no substring of `s` has the placeholder shape. -/
def noShapedSub (s : Str) : Bool :=
  (List.range (s.length + 1)).all fun i =>
    (List.range (s.length + 1)).all fun l => !placeholderShaped (sliceL s i l)

/- ### maskPIIFromContent (first pass: match discovery and allocation) -/

/-- One step of the first pass of `maskPIIFromContent`: for a matched string
`m`, if it is not yet claimed and is not placeholder-shaped, allocate the
placeholder `[KEY_%04x]` from the per-request counter. -/
def allocOne (key : Str) (st : List (Str × Str) × Nat) (m : Str) :
    List (Str × Str) × Nat :=
  if lookupL m st.1 = none ∧ placeholderShaped m = false then
    (st.1 ++ [(m, mkPlaceholder key st.2)], st.2 + 1)
  else st

def allocDet (content : Str) (st : List (Str × Str) × Nat) (d : Str × Detector) :
    List (Str × Str) × Nat :=
  (detMatches d.2 content).foldl (allocOne d.1) st

def maskFirstPassAux (content : Str) (dets : List (Str × Detector))
    (st : List (Str × Str) × Nat) : List (Str × Str) × Nat :=
  dets.foldl (allocDet content) st

/-- The correlation entries (`allMatches` = `maskedPIIEntities`) produced by
the first pass of `maskPIIFromContent`, in allocation order.  The detector
list order stands for Go's incidental map iteration order. -/
def maskFirstPass (content : Str) (dets : List (Str × Detector)) :
    List (Str × Str) :=
  (maskFirstPassAux content dets ([], 0)).1

def keysOf (e : List (Str × Str)) : List Str := e.map Prod.fst

def valsOf (e : List (Str × Str)) : List Str := e.map Prod.snd

/- ### maskPIIFromContent (second pass: substitution, longest first) -/

/-- Descending-length comparison used by the `sort.Slice` call. -/
def lenGE (a b : Str) : Prop := b.length ≤ a.length

instance : DecidableRel lenGE := fun a b => Nat.decLe b.length a.length

instance : IsTotal Str lenGE := ⟨fun a b => (Nat.le_total b.length a.length).symm.symm⟩

instance : IsTrans Str lenGE := ⟨fun _ _ _ hab hbc => Nat.le_trans hbc hab⟩

/-- The substitution order of the second pass: the discovered literals sorted
by descending length (embedding of the `sort.Slice` call; ties are in an
unspecified order in Go, here the insertion order). -/
def substOrder (e : List (Str × Str)) : List Str :=
  List.insertionSort lenGE (keysOf e)

def maskSecondPass (content : Str) (e : List (Str × Str)) : Str :=
  (substOrder e).foldl (fun acc o => replaceAll o ((lookupL o e).getD []) acc) content

/-- Embedding of `maskPIIFromContent`: returns the masked content (`""` when
nothing was matched, mirroring the Go return value) and the correlation
entries stored into the metadata. -/
def maskPIIFromContent (content : Str) (dets : List (Str × Detector)) :
    Str × List (Str × Str) :=
  if content = [] then ([], [])
  else
    let e := maskFirstPass content dets
    let masked := maskSecondPass content e
    (if e = [] then [] else masked, e)

/- ### redactPIIFromContent -/

def fiveStars : Str := str ("*****")

def redactStep (st : Str × Bool) (d : Str × Detector) : Str × Bool :=
  if matchStringB d.2 st.1 then (replaceMatches d.2 st.1 fiveStars, true) else st

/-- Embedding of `redactPIIFromContent`: every match of every detector
replaced by `*****`; returns `""` when no detector matched. -/
def redactPIIFromContent (content : Str) (dets : List (Str × Detector)) : Str :=
  if content = [] then []
  else
    let r := dets.foldl redactStep (content, false)
    if r.2 then r.1 else []

/- ### restorePIIInResponse -/

/-- Embedding of `restorePIIInResponse`: each stored placeholder replaced by
its original literal (the entry list order stands for Go's incidental map
iteration order). -/
def restorePIIInResponse (originalContent : Str) (entries : List (Str × Str)) : Str :=
  entries.foldl
    (fun acc p => if containsSub acc p.2 then replaceAll p.2 p.1 acc else acc)
    originalContent

/- ### updatePayloadWithMaskedContent -/

/-- Embedding of `updatePayloadWithMaskedContent`.  The JSON collaborators
(`json.Unmarshal`, `utils.SetValueAtJSONPath`, `json.Marshal`) are external to
the policy and are passed as abstract functions over an abstract parsed-JSON
type `J`; `none` models their error return. -/
def updatePayloadWithMaskedContent (J : Type) (parse : Str → Option J)
    (setV : J → Str → Str → Option J) (marshal : J → Option Str)
    (originalPayload extractedValue modifiedContent jsonPath : Str) : Str :=
  if jsonPath = [] then modifiedContent
  else
    match parse originalPayload with
    | none => modifiedContent
    | some j =>
      match setV j jsonPath modifiedContent with
      | none => originalPayload
      | some j' =>
        match marshal j' with
        | none => originalPayload
        | some out => out

/- ### Request-phase text cleaning -/

/-- Embedding of `ReplaceAllString` with `^"|"$`: strip one leading and one
trailing double-quote character. -/
def goCleanQuotes (s : Str) : Str :=
  let s1 := match s with
    | '"' :: r => r
    | _ => s
  if s1.getLast? = some '"' then s1.dropLast else s1

/-- Go `unicode.IsSpace` (the code points `strings.TrimSpace` trims). -/
def isGoSpace (c : Char) : Bool :=
  c = ' ' || c = '\t' || c = '\n' || c = '\x0b' || c = '\x0c' || c = '\r' ||
  c = '\x85' || c = '\xa0' ||
  c = Char.ofNat 0x1680 || (Char.ofNat 0x2000 ≤ c && c ≤ Char.ofNat 0x200a) ||
  c = Char.ofNat 0x2028 || c = Char.ofNat 0x2029 || c = Char.ofNat 0x202f ||
  c = Char.ofNat 0x205f || c = Char.ofNat 0x3000

/-- Embedding of `strings.TrimSpace`. -/
def goTrimSpace (s : Str) : Str :=
  ((s.dropWhile isGoSpace).reverse.dropWhile isGoSpace).reverse

/- ### OnRequest / OnResponse -/

inductive ReqAction where
  | pass
  | modifyBody (b : Str)
  | immediateErr
deriving DecidableEq

/-- Embedding of `OnRequest`.  `extract` stands for the external
`utils.ExtractStringValueFromJsonpath` collaborator.  The second component is
the correlation entry written into the exchange metadata (under
`piimaskingregex:pii_entities`), `none` when nothing is stored. -/
def OnRequest (J : Type) (extract : Str → Str → Except Unit Str)
    (parse : Str → Option J) (setV : J → Str → Str → Option J)
    (marshal : J → Option Str) (dets : List (Str × Detector)) (redactPII : Bool)
    (jsonPath : Str) (body : Option Str) : ReqAction × Option (List (Str × Str)) :=
  if dets.isEmpty then (.pass, none)
  else
    match body with
    | none => (.pass, none)
    | some payload =>
      match extract payload jsonPath with
      | .error _ => (.immediateErr, none)
      | .ok v =>
        let extractedValue := goTrimSpace (goCleanQuotes v)
        if redactPII then
          let m := redactPIIFromContent extractedValue dets
          if m ≠ [] ∧ m ≠ extractedValue then
            (.modifyBody (updatePayloadWithMaskedContent J parse setV marshal
              payload extractedValue m jsonPath), none)
          else (.pass, none)
        else
          let r := maskPIIFromContent extractedValue dets
          let md := if r.2 = [] then none else some r.2
          if r.1 ≠ [] ∧ r.1 ≠ extractedValue then
            (.modifyBody (updatePayloadWithMaskedContent J parse setV marshal
              payload extractedValue r.1 jsonPath), md)
          else (.pass, md)

/-- Inverse of the counter formatting: the value of the hex digits standing
between the final `_` and the closing `]` of a generated placeholder.  Entity
names match `^[A-Z_]+$`, so they contain no lowercase hex digit and the
trailing hex run of a generated placeholder is exactly the counter block. -/
def fromHexLE : List Char → Nat
  | [] => 0
  | c :: r => hexVal c + 16 * fromHexLE r

def decodeCounter (s : Str) : Nat :=
  fromHexLE ((s.reverse.drop 1).takeWhile isHexLower)

/-- Invariant of the first-pass allocation state `(entries, counter)`: the
counter equals the number of entries, literals are pairwise distinct and
never placeholder-shaped, and the `i`-th allocated placeholder was built by
`mkPlaceholder` from counter value `i`. -/
def GoodState (st : List (Str × Str) × Nat) : Prop :=
  st.2 = st.1.length ∧
  (keysOf st.1).Nodup ∧
  (∀ m ∈ keysOf st.1, placeholderShaped m = false) ∧
  ∃ ks, ks.length = st.1.length ∧
    valsOf st.1 = List.zipWith mkPlaceholder ks (List.range st.1.length)

/-- The metadata value found under `piimaskingregex:pii_entities` in the
response phase: either the string-to-string map written by the request phase,
or a value of some other type (failing the Go type assertion). -/
inductive MetaVal where
  | strMap (e : List (Str × Str))
  | other

/-- Embedding of `OnResponse`: `none` models the unchanged outcome
(`UpstreamResponseModifications{}`), `some b` a replaced response body. -/
def OnResponse (redactPII : Bool) (md : Option MetaVal) (respBody : Option Str) :
    Option Str :=
  if redactPII then none
  else
    match md with
    | none => none
    | some .other => none
    | some (.strMap e) =>
      match respBody with
      | none => none
      | some payload =>
        let r := restorePIIInResponse payload e
        if r ≠ payload then some r else none

/- ### Concrete instances used by the testable-property claims -/

/-- Scenario content from the spec: `"Contact jane@example.com or 555-123-4567"`. -/
def cttScenario : Str := str ("Contact jane@example.com or 555-123-4567")

/-- The built-in `EMAIL` and `PHONE` detectors, both enabled. -/
def detsScenario : List (Str × Detector) :=
  [(str ("EMAIL"), emailDetector), (str ("PHONE"), phoneDetector)]

/-- Round-trip failing input: one custom detector `E` with pattern
`wxyz|0\]q` (both alternatives are plain literals). -/
def detsRT : List (Str × Detector) :=
  [(str ("E"), litAltDetector [str ("wxyz"), str ("0]q")])]

def cttRT : Str := str ("wxyzq 0]q")

/-- Substring-safety input: one custom detector `BB` with pattern
`xB_00y|B_00`; the literal `B_00` is a strict substring of `xB_00y` and also
occurs inside the placeholder text `[BB_0000]`. -/
def detsSub : List (Str × Detector) :=
  [(str ("BB"), litAltDetector [str ("xB_00y"), str ("B_00")])]

def cttSub : Str := str ("zxB_00yw B_00q")

/-- Two single-literal custom detectors used to expose the dependence of the
output on the detector iteration order. -/
def dEntA : Str × Detector := (str ("A"), litAltDetector [str ("x")])

def dEntB : Str × Detector := (str ("B"), litAltDetector [str ("y")])

/- ### Lemmas about lookup and keys -/

theorem lookupL_eq_none_iff {k : Str} {e : List (Str × Str)} :
    lookupL k e = none ↔ k ∉ keysOf e := by
  induction e with
  | nil => simp [lookupL, keysOf]
  | cons p r ih =>
    obtain ⟨a, b⟩ := p
    simp only [lookupL, keysOf, List.map_cons, List.mem_cons]
    split
    · rename_i h
      subst h
      simp
    · rename_i h
      rw [ih]
      unfold keysOf
      constructor
      · intro hn hmem
        rcases hmem with hmem | hmem
        · exact h hmem.symm
        · exact hn hmem
      · intro hn hmem
        exact hn (Or.inr hmem)

theorem mem_keys_of_mem {lit p : Str} {e : List (Str × Str)}
    (h : (lit, p) ∈ e) : lit ∈ keysOf e :=
  List.mem_map.mpr ⟨(lit, p), h, rfl⟩

theorem assoc_functional {e : List (Str × Str)} (hnd : (keysOf e).Nodup)
    {lit p₁ p₂ : Str} (h₁ : (lit, p₁) ∈ e) (h₂ : (lit, p₂) ∈ e) : p₁ = p₂ := by
  induction e with
  | nil => cases h₁
  | cons q r ih =>
    obtain ⟨a, b⟩ := q
    simp only [keysOf, List.map_cons, List.nodup_cons] at hnd
    rcases List.mem_cons.mp h₁ with h₁ | h₁ <;>
      rcases List.mem_cons.mp h₂ with h₂ | h₂
    · rw [Prod.mk.injEq] at h₁ h₂
      rw [h₁.2, h₂.2]
    · exfalso
      rw [Prod.mk.injEq] at h₁
      exact hnd.1 (h₁.1 ▸ mem_keys_of_mem h₂)
    · exfalso
      rw [Prod.mk.injEq] at h₂
      exact hnd.1 (h₂.1 ▸ mem_keys_of_mem h₁)
    · exact ih hnd.2 h₁ h₂

/- ### Lemmas about the counter formatting -/

theorem hexVal_hexDigit {n : Nat} (h : n < 16) : hexVal (hexDigit n) = n := by
  interval_cases n <;> rfl

theorem isHexLower_hexDigit (n : Nat) : isHexLower (hexDigit n) = true := by
  unfold hexDigit
  split <;> rfl

theorem fromHexLE_toHexLEF {fuel n : Nat} (h : n < fuel) :
    fromHexLE (toHexLEF fuel n) = n := by
  induction fuel generalizing n with
  | zero => omega
  | succ fuel ih =>
    unfold toHexLEF
    split
    · rename_i h16
      simp [fromHexLE, hexVal_hexDigit h16]
    · rename_i h16
      have hdiv : n / 16 < fuel := by
        have hlt : n / 16 < n := Nat.div_lt_self (by omega) (by omega)
        omega
      simp only [fromHexLE, ih hdiv, hexVal_hexDigit (Nat.mod_lt n (by omega))]
      omega

theorem mem_toHexLEF_isHexLower {fuel n : Nat} {c : Char}
    (hc : c ∈ toHexLEF fuel n) : isHexLower c = true := by
  induction fuel generalizing n with
  | zero => cases hc
  | succ fuel ih =>
    unfold toHexLEF at hc
    split at hc
    · rcases List.mem_singleton.mp hc with rfl
      exact isHexLower_hexDigit n
    · rcases List.mem_cons.mp hc with rfl | hc
      · exact isHexLower_hexDigit (n % 16)
      · exact ih hc

theorem fromHexLE_append_zeros (l : List Char) (p : Nat) :
    fromHexLE (l ++ List.replicate p '0') = fromHexLE l := by
  induction l with
  | nil =>
    simp only [List.nil_append]
    induction p with
    | zero => rfl
    | succ p ihp => simpa [List.replicate_succ, fromHexLE, hexVal] using ihp
  | cons c r ih => simp [fromHexLE, ih]

theorem takeWhile_append_of_all {p : Char → Bool} (l r : List Char) {c : Char}
    (hl : ∀ x ∈ l, p x = true) (hc : p c = false) :
    (l ++ c :: r).takeWhile p = l := by
  induction l with
  | nil => simp [List.takeWhile_cons, hc]
  | cons a l ih =>
    have ha : p a = true := hl a (List.mem_cons_self a l)
    simp only [List.cons_append, List.takeWhile_cons, ha, if_true]
    rw [ih (fun x hx => hl x (List.mem_cons_of_mem a hx))]

theorem decodeCounter_mkPlaceholder (k : Str) (c : Nat) :
    decodeCounter (mkPlaceholder k c) = c := by
  have hrev : (mkPlaceholder k c).reverse.drop 1 =
      (hex4 c).reverse ++ '_' :: k.reverse ++ ['['] := by
    simp [mkPlaceholder, List.reverse_cons, List.reverse_append]
  have hall : ∀ x ∈ (hex4 c).reverse, isHexLower x = true := by
    intro x hx
    rw [List.mem_reverse] at hx
    unfold hex4 at hx
    rcases List.mem_append.mp hx with hx' | hx'
    · rcases List.eq_of_mem_replicate hx' with rfl
      rfl
    · exact mem_toHexLEF_isHexLower (by simpa [toHexBE, toHexLE, List.mem_reverse] using hx')
  have htw : (((hex4 c).reverse ++ '_' :: (k.reverse ++ ['['])).takeWhile isHexLower) =
      (hex4 c).reverse :=
    takeWhile_append_of_all _ _ hall rfl
  have hval : fromHexLE ((hex4 c).reverse) = c := by
    have : (hex4 c).reverse = toHexLEF (c + 1) c ++ List.replicate (4 - (toHexBE c).length) '0' := by
      simp [hex4, List.reverse_append, toHexBE, toHexLE]
    rw [this, fromHexLE_append_zeros, fromHexLE_toHexLEF (Nat.lt_succ_self c)]
  unfold decodeCounter
  rw [hrev]
  simpa [htw] using hval

theorem mkPlaceholder_counter_inj {k k' : Str} {i j : Nat}
    (h : mkPlaceholder k i = mkPlaceholder k' j) : i = j := by
  have := congrArg decodeCounter h
  rwa [decodeCounter_mkPlaceholder, decodeCounter_mkPlaceholder] at this

/- ### Lemmas about the first-pass allocation -/

theorem exists_of_mem_zipWith {α β γ : Type} {f : α → β → γ} :
    ∀ {l : List α} {l' : List β} {p : γ}, p ∈ List.zipWith f l l' →
      ∃ a b, a ∈ l ∧ b ∈ l' ∧ p = f a b := by
  intro l
  induction l with
  | nil => intro l' p hp; simp [List.zipWith] at hp
  | cons a l ih =>
    intro l' p hp
    cases l' with
    | nil => simp [List.zipWith] at hp
    | cons b l' =>
      rcases List.mem_cons.mp hp with rfl | hp
      · exact ⟨a, b, List.mem_cons_self a l, List.mem_cons_self b l', rfl⟩
      · obtain ⟨a', b', ha, hb, rfl⟩ := ih hp
        exact ⟨a', b', List.mem_cons_of_mem a ha, List.mem_cons_of_mem b hb, rfl⟩

theorem nodup_zipWith_mkPlaceholder :
    ∀ (ks : List Str) (rs : List Nat), rs.Nodup →
      (List.zipWith mkPlaceholder ks rs).Nodup := by
  intro ks
  induction ks with
  | nil => intro rs _; simp [List.zipWith]
  | cons k ks ih =>
    intro rs hnd
    cases rs with
    | nil => simp [List.zipWith]
    | cons r rs =>
      rw [List.nodup_cons] at hnd
      rw [List.zipWith_cons_cons, List.nodup_cons]
      refine ⟨?_, ih rs hnd.2⟩
      intro hmem
      obtain ⟨a, b, _, hb, heq⟩ := exists_of_mem_zipWith hmem
      rcases mkPlaceholder_counter_inj heq with rfl
      exact hnd.1 hb

theorem goodState_allocOne (key : Str) (st : List (Str × Str) × Nat) (m : Str)
    (h : GoodState st) : GoodState (allocOne key st m) := by
  unfold allocOne
  split
  · rename_i hc
    obtain ⟨hlen, hnd, hsh, ks, hks, hvals⟩ := h
    have hm : m ∉ keysOf st.1 := lookupL_eq_none_iff.mp hc.1
    refine ⟨?_, ?_, ?_, ks ++ [key], ?_, ?_⟩
    · simp [hlen]
    · unfold keysOf
      rw [List.map_append, List.nodup_append]
      refine ⟨hnd, List.nodup_singleton m, ?_⟩
      intro a ha hb
      rcases List.mem_singleton.mp hb with rfl
      exact hm ha
    · intro m' hm'
      unfold keysOf at hm'
      rw [List.map_append] at hm'
      rcases List.mem_append.mp hm' with hm' | hm'
      · exact hsh m' hm'
      · rcases List.mem_singleton.mp hm' with rfl
        exact hc.2
    · simp [hks]
    · unfold valsOf
      rw [List.map_append, List.length_append]
      simp only [List.map_cons, List.map_nil, List.length_cons, List.length_nil]
      rw [List.range_succ,
        List.zipWith_append _ _ _ _ _ (by rw [hks, List.length_range])]
      unfold valsOf at hvals
      rw [hvals, hlen]
      rfl
  · exact h

theorem goodState_foldl_allocOne (key : Str) (ms : List Str) :
    ∀ st, GoodState st → GoodState (ms.foldl (allocOne key) st) := by
  induction ms with
  | nil => intro st h; exact h
  | cons m ms ih =>
    intro st h
    rw [List.foldl_cons]
    exact ih _ (goodState_allocOne key st m h)

theorem goodState_maskFirstPassAux (content : Str) (dets : List (Str × Detector)) :
    ∀ st, GoodState st → GoodState (maskFirstPassAux content dets st) := by
  induction dets with
  | nil => intro st h; exact h
  | cons d ds ih =>
    intro st h
    unfold maskFirstPassAux at ih ⊢
    rw [List.foldl_cons]
    exact ih _ (goodState_foldl_allocOne d.1 (detMatches d.2 content) st h)

theorem maskFirstPass_goodState (content : Str) (dets : List (Str × Detector)) :
    GoodState (maskFirstPassAux content dets ([], 0)) := by
  refine goodState_maskFirstPassAux content dets ([], 0) ⟨rfl, List.nodup_nil, ?_, [], rfl, rfl⟩
  intro m hm
  cases hm

/- ### Membership characterization of the discovered literal set -/

theorem keys_allocOne_iff (key : Str) (st : List (Str × Str) × Nat) (m x : Str) :
    x ∈ keysOf (allocOne key st m).1 ↔
      x ∈ keysOf st.1 ∨ (x = m ∧ placeholderShaped m = false) := by
  unfold allocOne
  split
  · rename_i hc
    unfold keysOf
    rw [List.map_append, List.mem_append]
    constructor
    · intro h
      rcases h with h | h
      · exact Or.inl h
      · rcases List.mem_singleton.mp h with rfl
        exact Or.inr ⟨rfl, hc.2⟩
    · intro h
      rcases h with h | ⟨rfl, _⟩
      · exact Or.inl h
      · exact Or.inr (List.mem_singleton.mpr rfl)
  · rename_i hc
    constructor
    · intro h
      exact Or.inl h
    · intro h
      rcases h with h | ⟨rfl, hsh⟩
      · exact h
      · by_cases hl : lookupL x st.1 = none
        · exact absurd ⟨hl, hsh⟩ hc
        · by_contra hmem
          exact hl (lookupL_eq_none_iff.mpr hmem)

theorem keys_foldl_allocOne_iff (key : Str) (ms : List Str) :
    ∀ st x, x ∈ keysOf ((ms.foldl (allocOne key) st).1) ↔
      x ∈ keysOf st.1 ∨ (x ∈ ms ∧ placeholderShaped x = false) := by
  induction ms with
  | nil => intro st x; simp
  | cons m ms ih =>
    intro st x
    rw [List.foldl_cons, ih, keys_allocOne_iff]
    constructor
    · intro h
      rcases h with (h | ⟨rfl, hsh⟩) | ⟨hm, hsh⟩
      · exact Or.inl h
      · exact Or.inr ⟨List.mem_cons_self x ms, hsh⟩
      · exact Or.inr ⟨List.mem_cons_of_mem m hm, hsh⟩
    · intro h
      rcases h with h | ⟨hm, hsh⟩
      · exact Or.inl (Or.inl h)
      · rcases List.mem_cons.mp hm with rfl | hm
        · exact Or.inl (Or.inr ⟨rfl, hsh⟩)
        · exact Or.inr ⟨hm, hsh⟩

theorem keys_maskFirstPassAux_iff (content : Str) (dets : List (Str × Detector)) :
    ∀ st x, x ∈ keysOf ((maskFirstPassAux content dets st).1) ↔
      x ∈ keysOf st.1 ∨
        (placeholderShaped x = false ∧ ∃ d ∈ dets, x ∈ detMatches d.2 content) := by
  induction dets with
  | nil => intro st x; simp [maskFirstPassAux]
  | cons d ds ih =>
    intro st x
    unfold maskFirstPassAux at ih ⊢
    rw [List.foldl_cons, ih]
    unfold allocDet
    rw [keys_foldl_allocOne_iff]
    constructor
    · intro h
      rcases h with (h | ⟨hm, hsh⟩) | ⟨hsh, d', hd', hm⟩
      · exact Or.inl h
      · exact Or.inr ⟨hsh, d, List.mem_cons_self d ds, hm⟩
      · exact Or.inr ⟨hsh, d', List.mem_cons_of_mem d hd', hm⟩
    · intro h
      rcases h with h | ⟨hsh, d', hd', hm⟩
      · exact Or.inl (Or.inl h)
      · rcases List.mem_cons.mp hd' with rfl | hd'
        · exact Or.inl (Or.inr ⟨hm, hsh⟩)
        · exact Or.inr ⟨hsh, d', hd', hm⟩

theorem maskFirstPass_mem_iff (content : Str) (dets : List (Str × Detector)) (x : Str) :
    x ∈ keysOf (maskFirstPass content dets) ↔
      placeholderShaped x = false ∧ ∃ d ∈ dets, x ∈ detMatches d.2 content := by
  unfold maskFirstPass
  rw [keys_maskFirstPassAux_iff]
  simp [keysOf]

/- ### Lemmas about replacement and restoration -/

theorem replaceAllF_of_not_contains {pat rep : Str} :
    ∀ {fuel : Nat} {s : Str}, containsSub s pat = false → replaceAllF pat rep fuel s = s := by
  intro fuel
  induction fuel with
  | zero => intro s _; rfl
  | succ fuel ih =>
    intro s h
    cases s with
    | nil => rfl
    | cons c rest =>
      unfold containsSub at h
      rw [Bool.or_eq_false_iff] at h
      unfold replaceAllF
      rw [if_neg]
      · rw [ih h.2]
      · intro hcond
        simp [h.1] at hcond

theorem replaceAll_of_not_contains {pat rep s : Str} (h : containsSub s pat = false) :
    replaceAll pat rep s = s :=
  replaceAllF_of_not_contains h

/- ### Claim theorems -/

/-- C1 (code bug): the round trip `restore(mask(content)) = content` fails on
the code.  With the single custom detector `E` of pattern `wxyz|0\]q` and the
content `"wxyzq 0]q"` — which contains no placeholder-shaped substring — the
second substitution pass textually replaces an occurrence of `0]q` that was
created inside the placeholder `[E_0000]` by the first substitution, so the
masked output is the corrupted `"[E_000[E_0001] [E_0001]"` and restoration
returns `"[E_0000]q 0]q"`, not the original content. -/
theorem roundTrip_failure :
    noShapedSub cttRT = true ∧
    (maskPIIFromContent cttRT detsRT).1 = str ("[E_000[E_0001] [E_0001]") ∧
    restorePIIInResponse (maskPIIFromContent cttRT detsRT).1
      (maskPIIFromContent cttRT detsRT).2 = str ("[E_0000]q 0]q") ∧
    restorePIIInResponse (maskPIIFromContent cttRT detsRT).1
      (maskPIIFromContent cttRT detsRT).2 ≠ cttRT := by
  decide

/-- C2 (counterexample): with `EMAIL` and `PHONE` enabled, masking the
scenario content allocates exactly one placeholder — for the email literal
only.  The default phone pattern requires the exchange segment to start with
`[2-9]`, so `555-123-4567` (exchange `123`) is not matched at all. -/
theorem scenario1_counterexample :
    detMatches phoneDetector cttScenario = [] ∧
    (maskPIIFromContent cttScenario detsScenario).2 =
      [(str ("jane@example.com"), str ("[EMAIL_0000]"))] ∧
    (maskPIIFromContent cttScenario detsScenario).2.length ≠ 2 := by
  decide

/-- C2 (amended): masking the scenario content with `EMAIL` and `PHONE`
enabled produces exactly one placeholder, `[EMAIL_0000]`, for the email
literal (the phone literal is not matched by the default phone pattern), and
restoring the masked output with the produced correlation entry reproduces
the original content exactly. -/
theorem scenario1_amended :
    (maskPIIFromContent cttScenario detsScenario).1 =
      str ("Contact [EMAIL_0000] or 555-123-4567") ∧
    restorePIIInResponse (maskPIIFromContent cttScenario detsScenario).1
      (maskPIIFromContent cttScenario detsScenario).2 = cttScenario := by
  decide

/-- C3 (counterexample): masking is not a function of the detector set alone.
The same two single-literal detectors presented in the two possible iteration
orders (a permutation of one another, as Go map iteration may produce either)
yield different masked outputs and different correlation entries: the counter
suffix each literal receives depends on the processing order. -/
theorem maskPII_order_dependent_counterexample :
    ([dEntA, dEntB]).Perm [dEntB, dEntA] ∧
    maskPIIFromContent (str ("xy")) [dEntA, dEntB] ≠
      maskPIIFromContent (str ("xy")) [dEntB, dEntA] :=
  ⟨List.Perm.swap dEntB dEntA [], by decide⟩

/-- C3 (amended): for a fixed detector processing order, masking is a
deterministic function of the content and that order, and the *set* of
masked literals does not depend on the order: permuting the detector list
leaves the discovered literal set unchanged.  The entity labels and counter
suffixes, however, do depend on the order (see the counterexample), and the
code takes that order from Go's incidental map iteration. -/
theorem maskPII_literalSet_perm_invariant (content : Str)
    (d₁ d₂ : List (Str × Detector)) (hperm : d₁.Perm d₂) (x : Str) :
    x ∈ keysOf (maskFirstPass content d₁) ↔ x ∈ keysOf (maskFirstPass content d₂) := by
  rw [maskFirstPass_mem_iff, maskFirstPass_mem_iff]
  apply and_congr Iff.rfl
  constructor
  · rintro ⟨d, hd, hm⟩
    exact ⟨d, hperm.mem_iff.mp hd, hm⟩
  · rintro ⟨d, hd, hm⟩
    exact ⟨d, hperm.mem_iff.mpr hd, hm⟩

/-- Witness for the amended C3 theorem at the concrete two-detector swap. -/
theorem maskPII_literalSet_perm_invariant_witness :
    (str ("x") ∈ keysOf (maskFirstPass (str ("xy")) [dEntA, dEntB]) ↔
      str ("x") ∈ keysOf (maskFirstPass (str ("xy")) [dEntB, dEntA])) :=
  maskPII_literalSet_perm_invariant (str ("xy")) [dEntA, dEntB] [dEntB, dEntA]
    (List.Perm.swap dEntB dEntA []) (str ("x"))

/-- C4 (counterexample): when the original payload cannot be parsed
(`json.Unmarshal` fails), `updatePayloadWithMaskedContent` returns the
*modified content* as the whole payload — not the original, unmodified
payload bytes claimed. -/
theorem updatePayload_parseFailure_counterexample :
    updatePayloadWithMaskedContent Unit (fun _ => none) (fun _ _ _ => none)
      (fun _ => none) (str ("ORIGINAL")) (str ("value")) (str ("MODIFIED"))
      (str ("$.messages")) = str ("MODIFIED") ∧
    str ("MODIFIED") ≠ str ("ORIGINAL") := by
  decide

/-- C4 (amended): with a non-empty JSONPath, a failure of
`SetValueAtJSONPath` or of the re-serialization falls back to the original,
unmodified payload; a failure to parse the payload as a JSON object instead
falls back to forwarding the modified content as the entire payload. -/
theorem updatePayload_fallback (J : Type) (parse : Str → Option J)
    (setV : J → Str → Str → Option J) (marshal : J → Option Str)
    (orig v m path : Str) (hpath : path ≠ []) :
    (parse orig = none →
      updatePayloadWithMaskedContent J parse setV marshal orig v m path = m) ∧
    (∀ j, parse orig = some j → setV j path m = none →
      updatePayloadWithMaskedContent J parse setV marshal orig v m path = orig) ∧
    (∀ j j', parse orig = some j → setV j path m = some j' → marshal j' = none →
      updatePayloadWithMaskedContent J parse setV marshal orig v m path = orig) := by
  unfold updatePayloadWithMaskedContent
  rw [if_neg hpath]
  refine ⟨?_, ?_, ?_⟩
  · intro h
    rw [h]
  · intro j hj hset
    rw [hj]
    dsimp only
    rw [hset]
  · intro j j' hj hset hm
    rw [hj]
    dsimp only
    rw [hset]
    dsimp only
    rw [hm]

/-- Witness for the amended C4 theorem: a concrete `SetValueAtJSONPath`
failure falls back to the original payload. -/
theorem updatePayload_fallback_witness :
    updatePayloadWithMaskedContent Unit (fun _ => some ()) (fun _ _ _ => none)
      (fun _ => none) (str ("ORIGINAL")) (str ("value")) (str ("MODIFIED"))
      (str ("$.messages")) = str ("ORIGINAL") :=
  (updatePayload_fallback Unit (fun _ => some ()) (fun _ _ _ => none)
    (fun _ => none) (str ("ORIGINAL")) (str ("value")) (str ("MODIFIED"))
    (str ("$.messages")) (by decide)).2.1 () rfl rfl

/-- C5 (counterexample): `B_00` is a strict substring of `xB_00y`, both are
matched, yet the masked output does not contain `xB_00y`'s placeholder
`[BB_0000]` intact: the later, shorter substitution pass replaced the
occurrence of `B_00` *inside* the placeholder text, corrupting it. -/
theorem substringSafety_counterexample :
    (containsSub (str ("xB_00y")) (str ("B_00")) = true ∧
      str ("B_00") ≠ str ("xB_00y")) ∧
    lookupL (str ("xB_00y")) (maskFirstPass cttSub detsSub) =
      some (str ("[BB_0000]")) ∧
    (maskPIIFromContent cttSub detsSub).1 =
      str ("z[B[BB_0001]00]w [BB_0001]q") ∧
    containsSub (maskPIIFromContent cttSub detsSub).1 (str ("[BB_0000]")) = false := by
  decide

/-- C5 (amended): the substitution pass does process the discovered literals
in descending order of literal length — the substitution order is sorted by
`lenGE` and is a permutation of the discovered literal set, so a strict
substring is always substituted after every longer literal — but the
no-corruption guarantee itself does not hold (see the counterexample). -/
theorem maskPII_substitution_longest_first (content : Str)
    (dets : List (Str × Detector)) :
    List.Sorted lenGE (substOrder (maskFirstPass content dets)) ∧
    (substOrder (maskFirstPass content dets)).Perm
      (keysOf (maskFirstPass content dets)) := by
  unfold substOrder
  exact ⟨List.sorted_insertionSort lenGE _, List.perm_insertionSort lenGE _⟩

/-- C6: the correlation map is a bijection.  Literals (keys) are pairwise
distinct, placeholders (values) are pairwise distinct, a literal is mapped to
a unique placeholder, and the `i`-th allocated placeholder is built by
`mkPlaceholder` from counter value `i` — the counter starts at 0 and
increments by one per newly allocated placeholder. -/
theorem maskPII_correlation_bijection (content : Str) (dets : List (Str × Detector)) :
    (keysOf (maskFirstPass content dets)).Nodup ∧
    (valsOf (maskFirstPass content dets)).Nodup ∧
    (∀ lit p₁ p₂, (lit, p₁) ∈ maskFirstPass content dets →
      (lit, p₂) ∈ maskFirstPass content dets → p₁ = p₂) ∧
    ∃ ks, ks.length = (maskFirstPass content dets).length ∧
      valsOf (maskFirstPass content dets) =
        List.zipWith mkPlaceholder ks (List.range (maskFirstPass content dets).length) := by
  obtain ⟨hlen, hnd, hsh, ks, hks, hvals⟩ := maskFirstPass_goodState content dets
  refine ⟨hnd, ?_, fun lit p₁ p₂ h₁ h₂ => assoc_functional hnd h₁ h₂, ks, hks, hvals⟩
  show (valsOf (maskFirstPassAux content dets ([], 0)).1).Nodup
  rw [hvals]
  exact nodup_zipWith_mkPlaceholder ks _ (List.nodup_range _)

/-- Witness for C6: the uniqueness consequence applied at a concrete input. -/
theorem maskPII_correlation_bijection_witness :
    str ("[E_0000]") = str ("[E_0000]") ∧
    (keysOf (maskFirstPass cttRT detsRT)).Nodup :=
  ⟨(maskPII_correlation_bijection cttRT detsRT).2.2.1 (str ("wxyz"))
      (str ("[E_0000]")) (str ("[E_0000]")) (by decide) (by decide),
    (maskPII_correlation_bijection cttRT detsRT).1⟩

/-- C7: a matched literal that already has the placeholder shape
`[ENTITY_XXXX]` is never added to the correlation map — hence it is never
assigned a placeholder and never substituted (the substitution pass only
processes map keys). -/
theorem maskPII_excludes_placeholder_shaped (content : Str)
    (dets : List (Str × Detector)) (m : Str) (h : placeholderShaped m = true) :
    m ∉ keysOf (maskFirstPass content dets) := by
  intro hmem
  have h2 := ((maskFirstPass_mem_iff content dets m).mp hmem).1
  rw [h] at h2
  cases h2

/-- Witness for C7: a placeholder-shaped literal that its detector matches is
still excluded from the correlation map. -/
theorem maskPII_excludes_placeholder_shaped_witness :
    placeholderShaped (str ("[EMAIL_0000]")) = true ∧
    str ("[EMAIL_0000]") ∉ keysOf (maskFirstPass (str ("[EMAIL_0000]"))
      [(str ("X"), litAltDetector [str ("[EMAIL_0000]")])]) :=
  ⟨by decide, maskPII_excludes_placeholder_shaped _ _ _ (by decide)⟩

/-- Characters of an occurring pattern occur in the string: if Go's
`strings.Contains s pat` holds, every character of `pat` is a character
of `s`. -/
theorem containsSub_subset {s pat : Str} (h : containsSub s pat = true) :
    ∀ c ∈ pat, c ∈ s := by
  induction s with
  | nil =>
    intro c hc
    unfold containsSub at h
    have : pat = [] := by simpa using h
    subst this
    cases hc
  | cons a r ih =>
    intro c hc
    unfold containsSub at h
    rw [Bool.or_eq_true] at h
    rcases h with h | h
    · exact (List.isPrefixOf_iff_prefix.mp h).subset hc
    · exact List.mem_cons_of_mem a (ih h c hc)

/-- Restoration is the identity when none of the stored placeholders occurs
in the content. -/
theorem restorePII_of_no_occurrence {out : Str} :
    ∀ {e : List (Str × Str)}, (∀ pr ∈ e, containsSub out pr.2 = false) →
      restorePIIInResponse out e = out := by
  intro e
  induction e with
  | nil => intro _; rfl
  | cons p rest ih =>
    intro h
    have hp : containsSub out p.2 = false := h p (List.mem_cons_self p rest)
    unfold restorePIIInResponse at ih ⊢
    rw [List.foldl_cons, hp]
    simp only [Bool.false_eq_true, if_false]
    exact ih (fun pr hpr => h pr (List.mem_cons_of_mem p hpr))

/-- C8 (counterexample): with `EMAIL` and `PHONE` enabled in redaction mode,
the scenario content is not redacted to `"Contact ***** or *****"`: the
default phone pattern does not match `555-123-4567` (its `MatchString` is
false on the content), so redaction replaces only the email match and the
actual output differs from the claimed one. -/
theorem scenario2_counterexample :
    matchStringB phoneDetector cttScenario = false ∧
    redactPIIFromContent cttScenario detsScenario =
      str ("Contact ***** or 555-123-4567") ∧
    redactPIIFromContent cttScenario detsScenario ≠
      str ("Contact ***** or *****") := by
  decide

/-- C8 (amended): redaction of the scenario content replaces only the email
match, producing `"Contact ***** or 555-123-4567"`; the response phase in
redaction mode always reports the unchanged outcome, whatever the metadata
and response body are; and applying the restorer itself to that output with
any correlation entry whose placeholders were produced by the masking
allocator leaves the output unchanged (the output contains no `[`, so no
generated placeholder occurs in it) — redaction never restores. -/
theorem scenario2_amended :
    redactPIIFromContent cttScenario detsScenario =
      str ("Contact ***** or 555-123-4567") ∧
    (∀ md b, OnResponse true md b = none) ∧
    (∀ e : List (Str × Str), (∀ pr ∈ e, ∃ k c, pr.2 = mkPlaceholder k c) →
      restorePIIInResponse (redactPIIFromContent cttScenario detsScenario) e =
        redactPIIFromContent cttScenario detsScenario) := by
  refine ⟨by decide, fun _ _ => rfl, ?_⟩
  intro e he
  apply restorePII_of_no_occurrence
  intro pr hpr
  cases hb : containsSub (redactPIIFromContent cttScenario detsScenario) pr.2 with
  | false => rfl
  | true =>
    exfalso
    obtain ⟨k, c, hpc⟩ := he pr hpr
    have hbr : ('[' : Char) ∈ redactPIIFromContent cttScenario detsScenario :=
      containsSub_subset hb '['
        (by rw [hpc]; unfold mkPlaceholder; exact List.mem_cons_self _ _)
    revert hbr
    decide

/-- Witness for the amended C8 theorem: restoring the redacted output with
the correlation entry masking would have produced for the email literal
leaves the output unchanged. -/
theorem scenario2_amended_witness :
    restorePIIInResponse (redactPIIFromContent cttScenario detsScenario)
      [(str ("jane@example.com"), str ("[EMAIL_0000]"))] =
      redactPIIFromContent cttScenario detsScenario :=
  scenario2_amended.2.2 [(str ("jane@example.com"), str ("[EMAIL_0000]"))]
    (fun pr hpr => by
      rcases List.mem_singleton.mp hpr with rfl
      exact ⟨str ("EMAIL"), 0, by decide⟩)

/-- C9: in the request phase, the text extracted at the JSONPath is first
stripped of one leading and one trailing double quote (`^"|"$`) and then
trimmed of surrounding whitespace; when masking modifies the content, the
value written back into the payload is the masked form of that cleaned,
trimmed text — the stripped quotes and whitespace are not preserved. -/
theorem onRequest_masks_cleaned_trimmed_value (J : Type)
    (extract : Str → Str → Except Unit Str) (parse : Str → Option J)
    (setV : J → Str → Str → Option J) (marshal : J → Option Str)
    (dets : List (Str × Detector)) (path payload v : Str)
    (hdets : dets ≠ []) (hex : extract payload path = .ok v)
    (hm : (maskPIIFromContent (goTrimSpace (goCleanQuotes v)) dets).1 ≠ [])
    (hne : (maskPIIFromContent (goTrimSpace (goCleanQuotes v)) dets).1 ≠
      goTrimSpace (goCleanQuotes v)) :
    OnRequest J extract parse setV marshal dets false path (some payload) =
      (.modifyBody (updatePayloadWithMaskedContent J parse setV marshal payload
          (goTrimSpace (goCleanQuotes v))
          (maskPIIFromContent (goTrimSpace (goCleanQuotes v)) dets).1 path),
        if (maskPIIFromContent (goTrimSpace (goCleanQuotes v)) dets).2 = []
        then none
        else some (maskPIIFromContent (goTrimSpace (goCleanQuotes v)) dets).2) := by
  have hempty : dets.isEmpty = false := by
    cases dets
    · exact absurd rfl hdets
    · rfl
  unfold OnRequest
  rw [hempty]
  simp only [Bool.false_eq_true, if_false]
  rw [hex]
  simp only [Bool.false_eq_true, if_false]
  rw [if_pos ⟨hm, hne⟩]

/-- Witness for C9: the extracted value `"\" x secret y \""` is dequoted and
trimmed to `"x secret y"` before detection, and the written-back value is its
masked form `"x [S_0000] y"` — without the original quotes or whitespace. -/
theorem onRequest_masks_cleaned_trimmed_value_witness :
    OnRequest Unit (fun _ _ => .ok (str ("\" x secret y \"")))
      (fun _ => none) (fun _ _ _ => none) (fun _ => none)
      [(str ("S"), litAltDetector [str ("secret")])] false [] (some (str ("IGNORED"))) =
      (.modifyBody (str ("x [S_0000] y")), some [(str ("secret"), str ("[S_0000]"))]) := by
  rw [onRequest_masks_cleaned_trimmed_value Unit
    (fun _ _ => .ok (str ("\" x secret y \""))) (fun _ => none) (fun _ _ _ => none)
    (fun _ => none) [(str ("S"), litAltDetector [str ("secret")])] [] (str ("IGNORED"))
    (str ("\" x secret y \"")) (List.cons_ne_nil _ _) rfl (by decide) (by decide)]
  decide

/-- C10: the response phase applies restoration to the entire raw response
body (no JSONPath extraction): with the string map present it reports the
unchanged outcome exactly when the restored string equals the body, and
otherwise returns the fully restored body; a missing metadata entry or one
of the wrong type yields the unchanged outcome; and for a stored entry the
restoration is `replaceAll` of the placeholder over the whole body, i.e.
every occurrence anywhere in the body is replaced. -/
theorem onResponse_restores_whole_body :
    (∀ e b, OnResponse false (some (.strMap e)) (some b) =
      if restorePIIInResponse b e = b then none
      else some (restorePIIInResponse b e)) ∧
    (∀ b, OnResponse false none b = none) ∧
    (∀ b, OnResponse false (some .other) b = none) ∧
    (∀ lit ph b, restorePIIInResponse b [(lit, ph)] = replaceAll ph lit b) := by
  refine ⟨?_, fun _ => rfl, fun _ => rfl, ?_⟩
  · intro e b
    unfold OnResponse
    by_cases h : restorePIIInResponse b e = b
    · simp [h]
    · simp [h]
  · intro lit ph b
    unfold restorePIIInResponse
    simp only [List.foldl_cons, List.foldl_nil]
    by_cases h : containsSub b ph = true
    · rw [if_pos h]
    · rw [if_neg h]
      exact (replaceAll_of_not_contains (Bool.not_eq_true _ ▸ h : containsSub b ph = false)).symm
